import Mathlib

/-!
Verification of the dual-mode (MongoDB primary / in-memory fallback) CRUD
persistence layer of the elevenlabs-clone backend (`src/backend/main.py`).

The handlers are shallowly embedded as pure functions on an explicit
`ApiState`.  The MongoDB collection is modelled as a list of documents with
first-match semantics for `find_one` / `update_one` / `delete_one`, and with
`find({}).sort("language", 1)` modelled as sorting by the `language` field.
The Python dict `fallback_audio_data` is modelled as an insertion-ordered
association list keyed by language (keys unique on all reachable states).
A primary-store driver exception inside a handler's `try` block is modelled
by a boolean `err` parameter: `err = true` means the first primary-store
call of the handler raises, so the handler falls through to the fallback
branch with no primary-store effect, exactly as in the source.
-/

/-- Pydantic model `AudioFile` (main.py lines 99-103). -/
structure AudioFile where
  id : String
  language : String
  audio_url : String
  text_content : String
deriving Repr, DecidableEq

/-- Pydantic model `AudioFileCreate` (main.py lines 105-108): the create
request body has `language`, `audio_url`, `text_content` and no `id`. -/
structure AudioFileCreate where
  language : String
  audio_url : String
  text_content : String
deriving Repr, DecidableEq

/-- HTTP-level outcome of a handler: a 200 body, or an
`HTTPException(status_code, detail)`. -/
inductive ApiResult (α : Type) where
  | ok : α → ApiResult α
  | httpError : Nat → String → ApiResult α
deriving Repr, DecidableEq

def ApiResult.isOk {α : Type} : ApiResult α → Bool
  | .ok _ => true
  | .httpError _ _ => false

/-- Process-wide mutable state of the backend: the `db_connected` flag, the
MongoDB `audio_files` collection, and the `fallback_audio_data` dict. -/
structure ApiState where
  db_connected : Bool
  primary : List AudioFile
  fallback : List (String × AudioFile)
deriving Repr, DecidableEq

/-! ### The fallback dict (Python `dict` keyed by language) -/

/-- Python `d[k]` lookup / `k in d` test: first entry with key `k`. -/
def dictGet (d : List (String × AudioFile)) (k : String) : Option AudioFile :=
  match d with
  | [] => none
  | (k', v) :: rest => if k' = k then some v else dictGet rest k

/-- Python `d[k] = v`: replace in place if the key exists, else append (Python
dicts preserve insertion order). -/
def dictInsert (d : List (String × AudioFile)) (k : String) (v : AudioFile) :
    List (String × AudioFile) :=
  match d with
  | [] => [(k, v)]
  | (k', v') :: rest =>
      if k' = k then (k', v) :: rest else (k', v') :: dictInsert rest k v

/-- Python `del d[k]`: remove the entry with key `k` (keys are unique in a dict). -/
def dictDelete (d : List (String × AudioFile)) (k : String) :
    List (String × AudioFile) :=
  d.filter (fun e => e.1 ≠ k)

/-! ### The primary store (MongoDB collection, first-match semantics) -/

/-- Embeds `collection.find_one({"language": lang})`: first document matching. -/
def findByLanguage (l : List AudioFile) (lang : String) : Option AudioFile :=
  match l with
  | [] => none
  | a :: rest => if a.language = lang then some a else findByLanguage rest lang

/-- Embeds `collection.update_one` with a `$set` of the two mutable fields:
replace the two mutable fields of the first matching document. -/
def updateFirstByLanguage (l : List AudioFile) (lang url txt : String) :
    List AudioFile :=
  match l with
  | [] => []
  | a :: rest =>
      if a.language = lang then
        { a with audio_url := url, text_content := txt } :: rest
      else a :: updateFirstByLanguage rest lang url txt

/-- Embeds `collection.delete_one({"language": lang})`: remove the first matching
document. -/
def deleteFirstByLanguage (l : List AudioFile) (lang : String) : List AudioFile :=
  match l with
  | [] => []
  | a :: rest =>
      if a.language = lang then rest else a :: deleteFirstByLanguage rest lang

/-! ### Sorting by `language` ascending
`collection.find({}).sort("language", 1)` on the primary path and
`sorted(audio_files, key=lambda x: x.language)` on the fallback path. -/

def insertByLanguage (a : AudioFile) : List AudioFile → List AudioFile
  | [] => [a]
  | b :: rest =>
      if a.language ≤ b.language then a :: b :: rest
      else b :: insertByLanguage a rest

def sortByLanguage : List AudioFile → List AudioFile
  | [] => []
  | a :: rest => insertByLanguage a (sortByLanguage rest)

/-! ### Seed data and startup -/

/-- First entry of `SAMPLE_AUDIO_DATA` (main.py lines 112-117). -/
def english_audio : AudioFile :=
  { id := "english_audio"
    language := "english"
    audio_url := "https://www.soundjay.com/misc/sounds/bell-ringing-05.wav"
    text_content := "In the ancient land of Eldoria, where skies shimmered and forests, whispered secrets to the wind, lived a dragon named Zephyros. [sarcastically] Not the \"burn it all down\" kind... [giggles] but he was gentle, wise, with eyes like old stars. [whispers] Even the birds fell silent when he passed." }

/-- Second entry of `SAMPLE_AUDIO_DATA` (main.py lines 118-123). -/
def arabic_audio : AudioFile :=
  { id := "arabic_audio"
    language := "arabic"
    audio_url := "https://www.soundjay.com/misc/sounds/bell-ringing-04.wav"
    text_content := "في أرض إلدوريا القديمة، حيث تتألق السماء وتهمس الغابات بأسرارها للريح، عاش تنين يُدعى زيفيروس. ليس من النوع الذي يحرق كل شيء... بل كان لطيفاً وحكيماً، بعيون مثل النجوم القديمة. حتى الطيور كانت تصمت عندما يمر." }

def SAMPLE_AUDIO_DATA : List AudioFile := [english_audio, arabic_audio]

/-- Embeds `for item in SAMPLE_AUDIO_DATA: fallback_audio_data[item[...]] = item`. -/
def seedFallback (items : List AudioFile) : List (String × AudioFile) :=
  items.foldl (fun d item => dictInsert d item.language item) []

/-- Startup (`startup_event`, main.py lines 129-157): seed the fallback dict
unconditionally; `connected` is the outcome of the startup probe
(`connect_to_mongo`), which is the only writer of `db_connected` besides
shutdown; when connected and the collection is empty, bulk-insert the seed
records into the primary store. `pre` is the pre-existing collection
contents. -/
def startup_event (connected : Bool) (pre : List AudioFile) : ApiState :=
  { db_connected := connected
    primary := if connected ∧ pre = [] then SAMPLE_AUDIO_DATA else pre
    fallback := seedFallback SAMPLE_AUDIO_DATA }

/-! ### The five CRUD handlers -/

/-- Handler for `GET /api/audio` (main.py lines 173-205).  Primary path: documents
sorted by language by MongoDB.  Fallback path (not connected, or driver
error): the dict values sorted by language. -/
def get_all_audio (s : ApiState) (err : Bool) :
    ApiResult (List AudioFile) × ApiState :=
  if s.db_connected ∧ err = false then
    (ApiResult.ok (sortByLanguage s.primary), s)
  else
    (ApiResult.ok (sortByLanguage (s.fallback.map Prod.snd)), s)

def notFoundMsg (language : String) : String :=
  "Audio file not found for language: " ++ language

def alreadyExistsMsg (language : String) : String :=
  "Audio file for language " ++ language ++ " already exists"

def deletedMsg (language : String) : String :=
  "Audio file for language " ++ language ++ " deleted successfully"

/-- Handler for `GET /api/audio/{language}` (main.py lines 207-235).  Note the source
falls through to the fallback dict both on a driver error and when the
primary `find_one` returns no document; 404 is raised only when the
fallback dict also lacks the language. -/
def get_audio_by_language (s : ApiState) (err : Bool) (language : String) :
    ApiResult AudioFile × ApiState :=
  let fb : ApiResult AudioFile × ApiState :=
    match dictGet s.fallback language with
    | some item => (ApiResult.ok item, s)
    | none => (ApiResult.httpError 404 (notFoundMsg language), s)
  if s.db_connected ∧ err = false then
    match findByLanguage s.primary language with
    | some doc => (ApiResult.ok doc, s)
    | none => fb
  else fb

/-- The document built by `create_audio_file` (main.py lines 249-254 and
274-279): `id` is computed as `f"{language}_audio"`. -/
def mkDoc (req : AudioFileCreate) : AudioFile :=
  { id := req.language ++ "_audio"
    language := req.language
    audio_url := req.audio_url
    text_content := req.text_content }

/-- Handler for `POST /api/audio` (main.py lines 237-288).  Primary path: 400 if the
language already exists, else insert and return the new document (the 400
`HTTPException` is re-raised, not caught by the driver-error handler).
Fallback path: same check-then-set against the dict. -/
def create_audio_file (s : ApiState) (err : Bool) (req : AudioFileCreate) :
    ApiResult AudioFile × ApiState :=
  let doc := mkDoc req
  let fb : ApiResult AudioFile × ApiState :=
    if (dictGet s.fallback req.language).isSome then
      (ApiResult.httpError 400 (alreadyExistsMsg req.language), s)
    else
      (ApiResult.ok doc,
       { s with fallback := dictInsert s.fallback req.language doc })
  if s.db_connected ∧ err = false then
    match findByLanguage s.primary req.language with
    | some _ => (ApiResult.httpError 400 (alreadyExistsMsg req.language), s)
    | none => (ApiResult.ok doc, { s with primary := s.primary ++ [doc] })
  else fb

/-- Handler for `PUT /api/audio/{language}` (main.py lines 290-337).  Primary path:
`update_one` with `$set` on the two mutable fields; 404 when
`matched_count == 0` (re-raised past the driver-error handler); on a match
the updated document is re-read and returned.  Fallback path:
`fallback_audio_data[language].update({...})` mutates the stored dict in
place. -/
def update_audio_file (s : ApiState) (err : Bool) (language : String)
    (req : AudioFileCreate) : ApiResult AudioFile × ApiState :=
  let fb : ApiResult AudioFile × ApiState :=
    match dictGet s.fallback language with
    | none => (ApiResult.httpError 404 (notFoundMsg language), s)
    | some item =>
        let updated :=
          { item with audio_url := req.audio_url, text_content := req.text_content }
        (ApiResult.ok updated,
         { s with fallback := dictInsert s.fallback language updated })
  if s.db_connected ∧ err = false then
    match findByLanguage s.primary language with
    | none => (ApiResult.httpError 404 (notFoundMsg language), s)
    | some a =>
        (ApiResult.ok
          { a with audio_url := req.audio_url, text_content := req.text_content },
         { s with primary :=
            updateFirstByLanguage s.primary language req.audio_url req.text_content })
  else fb

/-- Handler for `DELETE /api/audio/{language}` (main.py lines 339-361).  Primary path:
`delete_one`; 404 when `deleted_count == 0` (re-raised).  Fallback path:
`del fallback_audio_data[language]` after a membership check. -/
def delete_audio_file (s : ApiState) (err : Bool) (language : String) :
    ApiResult String × ApiState :=
  let fb : ApiResult String × ApiState :=
    if (dictGet s.fallback language).isSome then
      (ApiResult.ok (deletedMsg language),
       { s with fallback := dictDelete s.fallback language })
    else
      (ApiResult.httpError 404 (notFoundMsg language), s)
  if s.db_connected ∧ err = false then
    if (findByLanguage s.primary language).isSome then
      (ApiResult.ok (deletedMsg language),
       { s with primary := deleteFirstByLanguage s.primary language })
    else
      (ApiResult.httpError 404 (notFoundMsg language), s)
  else fb

/-- Handler for `GET /health` (main.py lines 363-382): the `database` field of the
response.  `pingErr` models the ping inside the health check raising. -/
def health_check (s : ApiState) (pingErr : Bool) : String :=
  if s.db_connected then (if pingErr then "error" else "connected")
  else "fallback_mode"

/-- The body of a 200 list response (used to state properties of
`get_all_audio`, whose result is always `ok`). -/
def okList (r : ApiResult (List AudioFile)) : List AudioFile :=
  match r with
  | .ok l => l
  | .httpError _ _ => []

/-- The id invariant of the spec: `id` is exactly `f"{language}_audio"`. -/
@[reducible] def goodId (a : AudioFile) : Prop := a.id = a.language ++ "_audio"

/-- Every record held in either store satisfies the id invariant. -/
@[reducible] def StateGood (s : ApiState) : Prop :=
  (∀ a ∈ s.primary, goodId a) ∧ (∀ e ∈ s.fallback, goodId e.2)

/-- Well-formedness of the fallback dict: every stored record's `language`
equals its key, and keys are unique (as in a Python dict). -/
@[reducible] def FallbackWF (d : List (String × AudioFile)) : Prop :=
  (∀ e ∈ d, e.2.language = e.1) ∧ (d.map Prod.fst).Nodup

/-! ## Helper lemmas about sorting by language -/

theorem perm_insertByLanguage (a : AudioFile) (l : List AudioFile) :
    (insertByLanguage a l).Perm (a :: l) := by
  induction l with
  | nil => simp [insertByLanguage]
  | cons b rest ih =>
      by_cases hab : a.language ≤ b.language
      · simp [insertByLanguage, hab]
      · simp only [insertByLanguage, hab, if_neg, not_false_iff]
        exact (ih.cons b).trans (List.Perm.swap a b rest)

theorem sorted_insertByLanguage (a : AudioFile) (l : List AudioFile)
    (h : l.Pairwise (fun x y => x.language ≤ y.language)) :
    (insertByLanguage a l).Pairwise (fun x y => x.language ≤ y.language) := by
  induction l with
  | nil => simp [insertByLanguage]
  | cons b rest ih =>
      rcases List.pairwise_cons.1 h with ⟨hb, hrest⟩
      by_cases hab : a.language ≤ b.language
      · simp only [insertByLanguage, hab, if_pos]
        refine List.pairwise_cons.2 ⟨?_, h⟩
        intro c hc
        rcases List.mem_cons.1 hc with hc | hc
        · exact hc ▸ hab
        · exact le_trans hab (hb c hc)
      · simp only [insertByLanguage, hab, if_neg, not_false_iff]
        refine List.pairwise_cons.2 ⟨?_, ih hrest⟩
        intro c hc
        have hc' := List.mem_cons.1 (((perm_insertByLanguage a rest).mem_iff).1 hc)
        rcases hc' with hc' | hc'
        · exact hc' ▸ le_of_not_le hab
        · exact hb c hc'

theorem sorted_sortByLanguage (l : List AudioFile) :
    (sortByLanguage l).Pairwise (fun x y => x.language ≤ y.language) := by
  induction l with
  | nil => simp [sortByLanguage]
  | cons a rest ih => exact sorted_insertByLanguage a _ ih

theorem perm_sortByLanguage (l : List AudioFile) :
    (sortByLanguage l).Perm l := by
  induction l with
  | nil => simp [sortByLanguage]
  | cons a rest ih =>
      exact (perm_insertByLanguage a (sortByLanguage rest)).trans (ih.cons a)

/-! ## Helper lemmas about the store primitives -/

theorem dictGet_dictInsert_self (d : List (String × AudioFile)) (k : String)
    (v : AudioFile) : dictGet (dictInsert d k v) k = some v := by
  induction d with
  | nil => simp [dictInsert, dictGet]
  | cons e rest ih =>
      by_cases h : e.1 = k
      · simp [dictInsert, dictGet, h]
      · simp [dictInsert, dictGet, h, ih]

theorem dictGet_dictDelete_self (d : List (String × AudioFile)) (k : String) :
    dictGet (dictDelete d k) k = none := by
  induction d with
  | nil => simp [dictDelete, dictGet]
  | cons e rest ih =>
      by_cases h : e.1 = k
      · simpa [dictDelete, List.filter, h] using ih
      · simpa [dictDelete, List.filter, h, dictGet] using ih

theorem dictGet_eq_none_iff (d : List (String × AudioFile)) (k : String) :
    dictGet d k = none ↔ k ∉ d.map Prod.fst := by
  induction d with
  | nil => simp [dictGet]
  | cons e rest ih =>
      by_cases h : e.1 = k
      · simp [dictGet, h]
      · simp only [dictGet, h, if_neg, not_false_iff, ih, List.map_cons,
          List.mem_cons, not_or]
        constructor
        · exact fun hn => ⟨fun hk => h hk.symm, hn⟩
        · exact fun hn => hn.2

theorem dictGet_mem (d : List (String × AudioFile)) (k : String)
    (v : AudioFile) (h : dictGet d k = some v) : (k, v) ∈ d := by
  induction d with
  | nil => simp [dictGet] at h
  | cons e rest ih =>
      by_cases he : e.1 = k
      · simp [dictGet, he] at h
        subst h
        exact (he ▸ List.mem_cons_self e rest)
      · simp [dictGet, he] at h
        exact List.mem_cons_of_mem _ (ih h)

theorem dictInsert_of_absent (d : List (String × AudioFile)) (k : String)
    (v : AudioFile) (h : dictGet d k = none) :
    dictInsert d k v = d ++ [(k, v)] := by
  induction d with
  | nil => simp [dictInsert]
  | cons e rest ih =>
      by_cases he : e.1 = k
      · simp [dictGet, he] at h
      · simp [dictGet, he] at h
        simp [dictInsert, he, ih h]

theorem findByLanguage_eq_none_iff (l : List AudioFile) (lang : String) :
    findByLanguage l lang = none ↔ lang ∉ l.map AudioFile.language := by
  induction l with
  | nil => simp [findByLanguage]
  | cons a rest ih =>
      by_cases h : a.language = lang
      · simp [findByLanguage, h]
      · simp only [findByLanguage, h, if_neg, not_false_iff, ih,
          List.map_cons, List.mem_cons, not_or]
        constructor
        · exact fun hn => ⟨fun hk => h hk.symm, hn⟩
        · exact fun hn => hn.2

theorem findByLanguage_mem (l : List AudioFile) (lang : String)
    (a : AudioFile) (h : findByLanguage l lang = some a) : a ∈ l := by
  induction l with
  | nil => simp [findByLanguage] at h
  | cons b rest ih =>
      by_cases hb : b.language = lang
      · simp [findByLanguage, hb] at h
        simp [h]
      · simp [findByLanguage, hb] at h
        exact List.mem_cons_of_mem _ (ih h)

theorem findByLanguage_append_of_none (l : List AudioFile) (lang : String)
    (doc : AudioFile) (h : findByLanguage l lang = none)
    (hd : doc.language = lang) :
    findByLanguage (l ++ [doc]) lang = some doc := by
  induction l with
  | nil => simp [findByLanguage, hd]
  | cons a rest ih =>
      by_cases ha : a.language = lang
      · simp [findByLanguage, ha] at h
      · simp [findByLanguage, ha] at h ⊢
        exact ih h

theorem findByLanguage_deleteFirst_self (l : List AudioFile) (lang : String)
    (h : (l.map AudioFile.language).Nodup) :
    findByLanguage (deleteFirstByLanguage l lang) lang = none := by
  induction l with
  | nil => simp [deleteFirstByLanguage, findByLanguage]
  | cons a rest ih =>
      simp only [List.map_cons, List.nodup_cons] at h
      by_cases ha : a.language = lang
      · simp only [deleteFirstByLanguage, ha, if_pos]
        exact (findByLanguage_eq_none_iff rest lang).2 (ha ▸ h.1)
      · simp only [deleteFirstByLanguage, ha, if_neg, not_false_iff]
        simp [findByLanguage, ha, ih h.2]

theorem mem_dictInsert (d : List (String × AudioFile)) (k : String)
    (v : AudioFile) (e : String × AudioFile) (h : e ∈ dictInsert d k v) :
    e ∈ d ∨ e = (k, v) := by
  induction d with
  | nil =>
      simp [dictInsert] at h
      simp [h]
  | cons f rest ih =>
      by_cases hf : f.1 = k
      · simp only [dictInsert, hf, if_pos, List.mem_cons] at h
        rcases h with h | h
        · right
          simp [h, ← hf]
        · exact Or.inl (List.mem_cons_of_mem _ h)
      · simp only [dictInsert, hf, if_neg, not_false_iff, List.mem_cons] at h
        rcases h with h | h
        · exact Or.inl (h ▸ List.mem_cons_self f rest)
        · rcases ih h with h | h
          · exact Or.inl (List.mem_cons_of_mem _ h)
          · exact Or.inr h

theorem dictInsert_map_fst_of_present (d : List (String × AudioFile))
    (k : String) (v : AudioFile) (h : (dictGet d k).isSome = true) :
    (dictInsert d k v).map Prod.fst = d.map Prod.fst := by
  induction d with
  | nil => simp [dictGet] at h
  | cons f rest ih =>
      by_cases hf : f.1 = k
      · simp [dictInsert, hf]
      · simp only [dictGet, hf, if_neg, not_false_iff] at h
        simp [dictInsert, hf, ih h]

theorem dictInsert_update_forall₂ (d : List (String × AudioFile)) (k : String)
    (item : AudioFile) (url txt : String) (h : dictGet d k = some item) :
    List.Forall₂
      (fun e f => f.1 = e.1 ∧ f.2.id = e.2.id ∧ f.2.language = e.2.language ∧
        (e.1 ≠ k → f = e))
      d (dictInsert d k { item with audio_url := url, text_content := txt }) := by
  induction d with
  | nil => simp [dictGet] at h
  | cons f rest ih =>
      obtain ⟨k', v'⟩ := f
      by_cases hf : k' = k
      · subst hf
        simp only [dictGet, if_pos] at h
        injection h with h
        subst h
        simp only [dictInsert, if_pos]
        refine List.Forall₂.cons ⟨rfl, rfl, rfl, fun hne => absurd rfl hne⟩ ?_
        exact List.forall₂_same.2 (fun x _ => ⟨rfl, rfl, rfl, fun _ => rfl⟩)
      · simp only [dictGet] at h
        rw [if_neg hf] at h
        simp only [dictInsert]
        rw [if_neg hf]
        exact List.Forall₂.cons ⟨rfl, rfl, rfl, fun _ => rfl⟩ (ih h)

theorem updateFirst_forall₂ (l : List AudioFile) (lang url txt : String) :
    List.Forall₂
      (fun x y => y.id = x.id ∧ y.language = x.language ∧
        (x.language ≠ lang → y = x))
      l (updateFirstByLanguage l lang url txt) := by
  induction l with
  | nil => simp [updateFirstByLanguage]
  | cons a rest ih =>
      by_cases ha : a.language = lang
      · simp only [updateFirstByLanguage]
        rw [if_pos ha]
        refine List.Forall₂.cons ⟨rfl, rfl, fun hne => absurd ha hne⟩ ?_
        exact List.forall₂_same.2 (fun x _ => ⟨rfl, rfl, fun _ => rfl⟩)
      · simp only [updateFirstByLanguage]
        rw [if_neg ha]
        exact List.Forall₂.cons ⟨rfl, rfl, fun _ => rfl⟩ ih

theorem mem_deleteFirst (l : List AudioFile) (lang : String) (x : AudioFile)
    (h : x ∈ deleteFirstByLanguage l lang) : x ∈ l := by
  induction l with
  | nil => simp [deleteFirstByLanguage] at h
  | cons a rest ih =>
      by_cases ha : a.language = lang
      · simp only [deleteFirstByLanguage, ha, if_pos] at h
        exact List.mem_cons_of_mem _ h
      · simp only [deleteFirstByLanguage, ha, if_neg, not_false_iff,
          List.mem_cons] at h
        rcases h with h | h
        · simp [h]
        · exact List.mem_cons_of_mem _ (ih h)

theorem goodId_updateFirst (l : List AudioFile) (lang url txt : String)
    (h : ∀ a ∈ l, goodId a) :
    ∀ x ∈ updateFirstByLanguage l lang url txt, goodId x := by
  induction l with
  | nil => simp [updateFirstByLanguage]
  | cons a rest ih =>
      intro x hx
      by_cases ha : a.language = lang
      · rw [updateFirstByLanguage, if_pos ha] at hx
        rcases List.mem_cons.1 hx with hx | hx
        · subst hx
          exact h a (List.mem_cons_self a rest)
        · exact h x (List.mem_cons_of_mem _ hx)
      · rw [updateFirstByLanguage, if_neg ha] at hx
        rcases List.mem_cons.1 hx with hx | hx
        · subst hx
          exact h x (List.mem_cons_self x rest)
        · exact ih (fun b hb => h b (List.mem_cons_of_mem _ hb)) x hx

theorem map_language_eq_map_fst (d : List (String × AudioFile))
    (h : ∀ e ∈ d, e.2.language = e.1) :
    d.map (fun e => e.2.language) = d.map Prod.fst := by
  induction d with
  | nil => rfl
  | cons e rest ih =>
      simp only [List.map_cons]
      rw [h e (List.mem_cons_self e rest),
        ih (fun x hx => h x (List.mem_cons_of_mem _ hx))]

/-! ## Claim theorems -/

/-- C1 counterexample.  The claim states that after a successful delete of a
language, a subsequent get of that language yields 404 on whichever code
path serves the requests.  This is false on the primary-store-backed path:
in the startup state with a successful connection (both stores seeded),
deleting `english` succeeds against the primary store, but the subsequent
get, finding no document in the primary store, falls through to the
fallback dict — which still holds the seed record — and returns it with
status 200 instead of 404. -/
theorem C1_counterexample :
    (delete_audio_file (startup_event true []) false "english").1
      = ApiResult.ok (deletedMsg "english")
  ∧ (get_audio_by_language
        (delete_audio_file (startup_event true []) false "english").2
        false "english").1 = ApiResult.ok english_audio :=
  ⟨rfl, rfl⟩

/-- C1 (amended).  After a successful delete of a language, a subsequent
get of that language yields 404 — on the fallback-backed path (`connected`
false) unconditionally, and on the primary-store-backed path provided the
language is absent from the fallback dict (otherwise the get falls through
to the fallback record; the primary store's languages are unique by its
index). -/
theorem C1_delete_then_get_amended (s : ApiState) (language : String) :
    (s.db_connected = false →
      (delete_audio_file s false language).1.isOk = true →
      (get_audio_by_language (delete_audio_file s false language).2
          false language).1
        = ApiResult.httpError 404 (notFoundMsg language))
  ∧ (s.db_connected = true →
      (s.primary.map AudioFile.language).Nodup →
      dictGet s.fallback language = none →
      (delete_audio_file s false language).1.isOk = true →
      (get_audio_by_language (delete_audio_file s false language).2
          false language).1
        = ApiResult.httpError 404 (notFoundMsg language)) := by
  constructor
  · intro hc hok
    by_cases hm : (dictGet s.fallback language).isSome = true
    · have hdel : delete_audio_file s false language
          = (ApiResult.ok (deletedMsg language),
             { s with fallback := dictDelete s.fallback language }) := by
        simp [delete_audio_file, hc, hm]
      rw [hdel]
      simp [get_audio_by_language, hc, dictGet_dictDelete_self]
    · have hdel : (delete_audio_file s false language).1
          = ApiResult.httpError 404 (notFoundMsg language) := by
        simp [delete_audio_file, hc, hm]
      rw [hdel] at hok
      simp [ApiResult.isOk] at hok
  · intro hc hnd hfb hok
    by_cases hp : (findByLanguage s.primary language).isSome = true
    · have hdel : delete_audio_file s false language
          = (ApiResult.ok (deletedMsg language),
             { s with primary := deleteFirstByLanguage s.primary language }) := by
        simp [delete_audio_file, hc, hp]
      rw [hdel]
      simp [get_audio_by_language, hc,
        findByLanguage_deleteFirst_self s.primary language hnd, hfb]
    · have hdel : (delete_audio_file s false language).1
          = ApiResult.httpError 404 (notFoundMsg language) := by
        simp [delete_audio_file, hc, hp]
      rw [hdel] at hok
      simp [ApiResult.isOk] at hok

/-- Witness for the amended C1: deleting `english` in fallback mode and
then getting it yields 404. -/
theorem C1_delete_then_get_amended_witness :
    (get_audio_by_language
        (delete_audio_file (startup_event false []) false "english").2
        false "english").1
      = ApiResult.httpError 404 (notFoundMsg "english") :=
  (C1_delete_then_get_amended (startup_event false []) "english").1 rfl (by rfl)

/-- C2.  Every 200 response of the list operation is sorted ascending by
`language`, for every state and on both code paths (`err = true` forces
the fallback path, as does `db_connected = false`; otherwise the primary
path answers). -/
theorem C2_list_sorted (s : ApiState) (err : Bool) :
    (get_all_audio s err).1 = ApiResult.ok (okList (get_all_audio s err).1)
  ∧ (okList (get_all_audio s err).1).Pairwise
      (fun a b => a.language ≤ b.language) := by
  by_cases hc : s.db_connected = true ∧ err = false
  · have h1 : okList (get_all_audio s err).1 = sortByLanguage s.primary := by
      simp [get_all_audio, hc, okList]
    exact ⟨by simp [get_all_audio, hc, okList],
      h1 ▸ sorted_sortByLanguage s.primary⟩
  · have h1 : okList (get_all_audio s err).1
        = sortByLanguage (s.fallback.map Prod.snd) := by
      simp [get_all_audio, hc, okList]
    exact ⟨by simp [get_all_audio, hc, okList],
      h1 ▸ sorted_sortByLanguage (s.fallback.map Prod.snd)⟩

/-- C3.  A create whose language is already present in the store serving
the request fails with HTTP 400 and the whole state (hence the stored
record) is unchanged: part one for the primary-store path, part two for
the fallback path (startup probe failed, or driver error on this call). -/
theorem C3_create_duplicate_rejected (s : ApiState) (err : Bool)
    (req : AudioFileCreate) :
    (s.db_connected = true → err = false →
      (findByLanguage s.primary req.language).isSome = true →
      create_audio_file s err req
        = (ApiResult.httpError 400 (alreadyExistsMsg req.language), s))
  ∧ (s.db_connected = false ∨ err = true →
      (dictGet s.fallback req.language).isSome = true →
      create_audio_file s err req
        = (ApiResult.httpError 400 (alreadyExistsMsg req.language), s)) := by
  constructor
  · intro hc he hp
    obtain ⟨a, ha⟩ := Option.isSome_iff_exists.1 hp
    simp [create_audio_file, hc, he, ha]
  · intro hor hm
    have hcond : ¬(s.db_connected = true ∧ err = false) := by
      rcases hor with h | h
      · simp [h]
      · simp [h]
    simp [create_audio_file, hcond, hm]

/-- Witness for C3: re-creating the seeded `english` record against the
connected primary store yields 400 and leaves the state unchanged. -/
theorem C3_create_duplicate_rejected_witness :
    create_audio_file (startup_event true []) false
        { language := "english", audio_url := "u", text_content := "t" }
      = (ApiResult.httpError 400 (alreadyExistsMsg "english"),
         startup_event true []) :=
  (C3_create_duplicate_rejected (startup_event true []) false
      { language := "english", audio_url := "u", text_content := "t" }).1
    rfl rfl (by rfl)

/-- C4.  A successful create of an absent language followed by a get of
that language returns exactly the created record (same `id`, `language`,
`audio_url`, `text_content`), on the primary-store path (part one) and the
fallback path (part two). -/
theorem C4_create_get_roundtrip (s : ApiState) (req : AudioFileCreate) :
    (s.db_connected = true →
      findByLanguage s.primary req.language = none →
      (create_audio_file s false req).1 = ApiResult.ok (mkDoc req) ∧
      (get_audio_by_language (create_audio_file s false req).2
          false req.language).1 = ApiResult.ok (mkDoc req))
  ∧ (s.db_connected = false →
      dictGet s.fallback req.language = none →
      (create_audio_file s false req).1 = ApiResult.ok (mkDoc req) ∧
      (get_audio_by_language (create_audio_file s false req).2
          false req.language).1 = ApiResult.ok (mkDoc req)) := by
  constructor
  · intro hc hp
    have hcr : create_audio_file s false req
        = (ApiResult.ok (mkDoc req),
           { s with primary := s.primary ++ [mkDoc req] }) := by
      simp [create_audio_file, hc, hp]
    refine ⟨by rw [hcr], ?_⟩
    rw [hcr]
    have hfind :=
      findByLanguage_append_of_none s.primary req.language (mkDoc req) hp rfl
    simp [get_audio_by_language, hc, hfind]
  · intro hc hfb
    have hcr : create_audio_file s false req
        = (ApiResult.ok (mkDoc req),
           { s with fallback := dictInsert s.fallback req.language (mkDoc req) }) := by
      simp [create_audio_file, hc, hfb]
    refine ⟨by rw [hcr], ?_⟩
    rw [hcr]
    simp [get_audio_by_language, hc, dictGet_dictInsert_self]

/-- Witness for C4: creating `french` in fallback mode and then getting it
returns the created record. -/
theorem C4_create_get_roundtrip_witness :
    (create_audio_file (startup_event false []) false
        { language := "french", audio_url := "u", text_content := "t" }).1
      = ApiResult.ok
          (mkDoc { language := "french", audio_url := "u", text_content := "t" })
  ∧ (get_audio_by_language
        (create_audio_file (startup_event false []) false
          { language := "french", audio_url := "u", text_content := "t" }).2
        false "french").1
      = ApiResult.ok
          (mkDoc { language := "french", audio_url := "u", text_content := "t" }) :=
  (C4_create_get_roundtrip (startup_event false [])
      { language := "french", audio_url := "u", text_content := "t" }).2
    rfl (by rfl)

/-- C5.  An update of a language absent from the store serving the request
fails with HTTP 404 and leaves the whole state (both stores and the flag)
unchanged: part one for the primary-store path, part two for the fallback
path. -/
theorem C5_update_absent_not_found (s : ApiState) (err : Bool)
    (language : String) (req : AudioFileCreate) :
    (s.db_connected = true → err = false →
      findByLanguage s.primary language = none →
      update_audio_file s err language req
        = (ApiResult.httpError 404 (notFoundMsg language), s))
  ∧ (s.db_connected = false ∨ err = true →
      dictGet s.fallback language = none →
      update_audio_file s err language req
        = (ApiResult.httpError 404 (notFoundMsg language), s)) := by
  constructor
  · intro hc he hp
    simp [update_audio_file, hc, he, hp]
  · intro hor hfb
    have hcond : ¬(s.db_connected = true ∧ err = false) := by
      rcases hor with h | h
      · simp [h]
      · simp [h]
    simp [update_audio_file, hcond, hfb]

/-- Witness for C5: updating the absent `french` against the connected
primary store yields 404 and changes nothing. -/
theorem C5_update_absent_not_found_witness :
    update_audio_file (startup_event true []) false "french"
        { language := "french", audio_url := "u", text_content := "t" }
      = (ApiResult.httpError 404 (notFoundMsg "french"), startup_event true []) :=
  (C5_update_absent_not_found (startup_event true []) false "french"
      { language := "french", audio_url := "u", text_content := "t" }).1
    rfl rfl (by rfl)

/-- C6.  A successful update replaces only `audio_url` and `text_content`
of the targeted record: the returned record keeps the stored `id` and
`language`, the other store and the flag are untouched, and the store that
served the request is rewritten pointwise so that every record keeps its
`id` and `language` and every record of a different language is completely
unchanged.  Part one: primary path (`a` the matched document); part two:
fallback path (`item` the stored dict value). -/
theorem C6_update_frame (s : ApiState) (language : String)
    (req : AudioFileCreate) (a item : AudioFile) :
    (s.db_connected = true → findByLanguage s.primary language = some a →
      (update_audio_file s false language req).1
        = ApiResult.ok
            { a with audio_url := req.audio_url, text_content := req.text_content }
      ∧ (update_audio_file s false language req).2.fallback = s.fallback
      ∧ (update_audio_file s false language req).2.db_connected = s.db_connected
      ∧ List.Forall₂
          (fun x y => y.id = x.id ∧ y.language = x.language ∧
            (x.language ≠ language → y = x))
          s.primary (update_audio_file s false language req).2.primary)
  ∧ (s.db_connected = false → dictGet s.fallback language = some item →
      (update_audio_file s false language req).1
        = ApiResult.ok
            { item with audio_url := req.audio_url, text_content := req.text_content }
      ∧ (update_audio_file s false language req).2.primary = s.primary
      ∧ (update_audio_file s false language req).2.db_connected = s.db_connected
      ∧ List.Forall₂
          (fun e f => f.1 = e.1 ∧ f.2.id = e.2.id ∧ f.2.language = e.2.language ∧
            (e.1 ≠ language → f = e))
          s.fallback (update_audio_file s false language req).2.fallback) := by
  constructor
  · intro hc hp
    have hupd : update_audio_file s false language req
        = (ApiResult.ok
             { a with audio_url := req.audio_url, text_content := req.text_content },
           { s with primary :=
              updateFirstByLanguage s.primary language req.audio_url req.text_content }) := by
      simp [update_audio_file, hc, hp]
    rw [hupd]
    exact ⟨rfl, rfl, rfl,
      updateFirst_forall₂ s.primary language req.audio_url req.text_content⟩
  · intro hc hfb
    have hupd : update_audio_file s false language req
        = (ApiResult.ok
             { item with audio_url := req.audio_url, text_content := req.text_content },
           { s with fallback := (dictInsert s.fallback language
                { item with audio_url := req.audio_url, text_content := req.text_content }) }) := by
      simp [update_audio_file, hc, hfb]
    rw [hupd]
    exact ⟨rfl, rfl, rfl,
      dictInsert_update_forall₂ s.fallback language item
        req.audio_url req.text_content hfb⟩

/-- Witness for C6: updating the seeded `english` in fallback mode keeps
its `id` and `language` and rewrites the dict pointwise. -/
theorem C6_update_frame_witness :
    (update_audio_file (startup_event false []) false "english"
        { language := "english", audio_url := "u2", text_content := "t2" }).1
      = ApiResult.ok
          { english_audio with audio_url := "u2", text_content := "t2" }
  ∧ (update_audio_file (startup_event false []) false "english"
        { language := "english", audio_url := "u2", text_content := "t2" }).2.primary
      = (startup_event false []).primary
  ∧ (update_audio_file (startup_event false []) false "english"
        { language := "english", audio_url := "u2", text_content := "t2" }).2.db_connected
      = (startup_event false []).db_connected
  ∧ List.Forall₂
      (fun e f => f.1 = e.1 ∧ f.2.id = e.2.id ∧ f.2.language = e.2.language ∧
        (e.1 ≠ "english" → f = e))
      (startup_event false []).fallback
      (update_audio_file (startup_event false []) false "english"
        { language := "english", audio_url := "u2", text_content := "t2" }).2.fallback :=
  (C6_update_frame (startup_event false []) "english"
      { language := "english", audio_url := "u2", text_content := "t2" }
      english_audio english_audio).2 rfl (by rfl)

/-- C8.  No handler ever changes the `db_connected` flag — in particular a
primary-store error (`err = true`) only diverts the single call to the
fallback store; the flag is written only by `connect_to_mongo` (startup
probe) and `close_mongo_connection` (shutdown), which are not part of any
request handler. -/
theorem C8_connected_flag_frame (s : ApiState) (err : Bool)
    (language : String) (req : AudioFileCreate) :
    (get_all_audio s err).2.db_connected = s.db_connected
  ∧ (get_audio_by_language s err language).2.db_connected = s.db_connected
  ∧ (create_audio_file s err req).2.db_connected = s.db_connected
  ∧ (update_audio_file s err language req).2.db_connected = s.db_connected
  ∧ (delete_audio_file s err language).2.db_connected = s.db_connected := by
  refine ⟨?_, ?_, ?_, ?_, ?_⟩
  · simp only [get_all_audio]
    split <;> rfl
  · simp only [get_audio_by_language]
    repeat' split
    all_goals rfl
  · simp only [create_audio_file]
    repeat' split
    all_goals rfl
  · simp only [update_audio_file]
    repeat' split
    all_goals rfl
  · simp only [delete_audio_file]
    repeat' split
    all_goals rfl

/-- C7.  The id invariant: the seed records and every record reachable
through the public operations have `id = language ++ "_audio"`.  The seeds
satisfy it; startup establishes it (given the pre-existing primary
contents satisfy it); the document built by create computes its `id` from
the request's `language` alone (the `AudioFileCreate` body has no id
field); every 200 record returned by create or get satisfies it; and the
three mutating handlers preserve it in both stores. -/
theorem C7_id_invariant (s : ApiState) (err : Bool) (language : String)
    (req : AudioFileCreate) (c : Bool) (pre : List AudioFile) (r x : AudioFile) :
    (∀ a ∈ SAMPLE_AUDIO_DATA, goodId a)
  ∧ ((∀ a ∈ pre, goodId a) → StateGood (startup_event c pre))
  ∧ (mkDoc req).id = req.language ++ "_audio"
  ∧ ((create_audio_file s err req).1 = ApiResult.ok r → goodId r)
  ∧ (StateGood s → StateGood (create_audio_file s err req).2)
  ∧ (StateGood s → StateGood (update_audio_file s err language req).2)
  ∧ (StateGood s → StateGood (delete_audio_file s err language).2)
  ∧ (StateGood s → (get_audio_by_language s err language).1 = ApiResult.ok x →
      goodId x) := by
  refine ⟨?_, ?_, rfl, ?_, ?_, ?_, ?_, ?_⟩
  · decide
  · intro hpre
    constructor
    · intro a ha
      simp only [startup_event] at ha
      by_cases hcp : c = true ∧ pre = []
      · rw [if_pos hcp] at ha
        revert a
        decide
      · rw [if_neg hcp] at ha
        exact hpre a ha
    · intro e he
      have hfb : (startup_event c pre).fallback
          = [("english", english_audio), ("arabic", arabic_audio)] := by rfl
      rw [hfb] at he
      rcases List.mem_cons.1 he with he | he
      · subst he
        decide
      · rcases List.mem_cons.1 he with he | he
        · subst he
          decide
        · simp at he
  · intro h
    by_cases hc : s.db_connected = true ∧ err = false
    · cases hp : findByLanguage s.primary req.language with
      | some a => simp [create_audio_file, hc, hp] at h
      | none =>
          have hres : (create_audio_file s err req).1 = ApiResult.ok (mkDoc req) := by
            simp [create_audio_file, hc, hp]
          rw [hres] at h
          injection h with h
          subst h
          rfl
    · by_cases hm : (dictGet s.fallback req.language).isSome = true
      · simp [create_audio_file, hc, hm] at h
      · have hres : (create_audio_file s err req).1 = ApiResult.ok (mkDoc req) := by
          simp [create_audio_file, hc, hm]
        rw [hres] at h
        injection h with h
        subst h
        rfl
  · rintro ⟨hgp, hgf⟩
    by_cases hc : s.db_connected = true ∧ err = false
    · cases hp : findByLanguage s.primary req.language with
      | some a =>
          have hst : (create_audio_file s err req).2 = s := by
            simp [create_audio_file, hc, hp]
          rw [hst]
          exact ⟨hgp, hgf⟩
      | none =>
          have hst : (create_audio_file s err req).2
              = { s with primary := s.primary ++ [mkDoc req] } := by
            simp [create_audio_file, hc, hp]
          rw [hst]
          refine ⟨?_, hgf⟩
          intro a ha
          rcases List.mem_append.1 ha with ha | ha
          · exact hgp a ha
          · rcases List.mem_cons.1 ha with ha | ha
            · subst ha
              rfl
            · simp at ha
    · by_cases hm : (dictGet s.fallback req.language).isSome = true
      · have hst : (create_audio_file s err req).2 = s := by
          simp [create_audio_file, hc, hm]
        rw [hst]
        exact ⟨hgp, hgf⟩
      · have hst : (create_audio_file s err req).2
            = { s with fallback := dictInsert s.fallback req.language (mkDoc req) } := by
          simp [create_audio_file, hc, hm]
        rw [hst]
        refine ⟨hgp, ?_⟩
        intro e he
        rcases mem_dictInsert s.fallback req.language (mkDoc req) e he with he | he
        · exact hgf e he
        · subst he
          rfl
  · rintro ⟨hgp, hgf⟩
    by_cases hc : s.db_connected = true ∧ err = false
    · cases hp : findByLanguage s.primary language with
      | none =>
          have hst : (update_audio_file s err language req).2 = s := by
            simp [update_audio_file, hc, hp]
          rw [hst]
          exact ⟨hgp, hgf⟩
      | some a =>
          have hst : (update_audio_file s err language req).2
              = { s with primary := (updateFirstByLanguage s.primary language
                    req.audio_url req.text_content) } := by
            simp [update_audio_file, hc, hp]
          rw [hst]
          exact ⟨goodId_updateFirst s.primary language req.audio_url
            req.text_content hgp, hgf⟩
    · cases hd : dictGet s.fallback language with
      | none =>
          have hst : (update_audio_file s err language req).2 = s := by
            simp [update_audio_file, hc, hd]
          rw [hst]
          exact ⟨hgp, hgf⟩
      | some item =>
          have hst : (update_audio_file s err language req).2
              = { s with fallback := (dictInsert s.fallback language
                  { item with audio_url := req.audio_url, text_content := req.text_content }) } := by
            simp [update_audio_file, hc, hd]
          rw [hst]
          refine ⟨hgp, ?_⟩
          intro e he
          rcases mem_dictInsert _ _ _ e he with he | he
          · exact hgf e he
          · subst he
            have : goodId item := hgf (language, item) (dictGet_mem _ _ _ hd)
            exact this
  · rintro ⟨hgp, hgf⟩
    by_cases hc : s.db_connected = true ∧ err = false
    · by_cases hp : (findByLanguage s.primary language).isSome = true
      · have hst : (delete_audio_file s err language).2
            = { s with primary := deleteFirstByLanguage s.primary language } := by
          simp [delete_audio_file, hc, hp]
        rw [hst]
        exact ⟨fun a ha => hgp a (mem_deleteFirst s.primary language a ha), hgf⟩
      · have hst : (delete_audio_file s err language).2 = s := by
          simp [delete_audio_file, hc, hp]
        rw [hst]
        exact ⟨hgp, hgf⟩
    · by_cases hm : (dictGet s.fallback language).isSome = true
      · have hst : (delete_audio_file s err language).2
            = { s with fallback := dictDelete s.fallback language } := by
          simp [delete_audio_file, hc, hm]
        rw [hst]
        refine ⟨hgp, ?_⟩
        intro e he
        exact hgf e (List.mem_of_mem_filter he)
      · have hst : (delete_audio_file s err language).2 = s := by
          simp [delete_audio_file, hc, hm]
        rw [hst]
        exact ⟨hgp, hgf⟩
  · rintro ⟨hgp, hgf⟩ hx
    by_cases hc : s.db_connected = true ∧ err = false
    · cases hp : findByLanguage s.primary language with
      | some doc =>
          have hres : (get_audio_by_language s err language).1 = ApiResult.ok doc := by
            simp [get_audio_by_language, hc, hp]
          rw [hres] at hx
          injection hx with hx
          subst hx
          exact hgp doc (findByLanguage_mem s.primary language doc hp)
      | none =>
          cases hd : dictGet s.fallback language with
          | some item =>
              have hres : (get_audio_by_language s err language).1
                  = ApiResult.ok item := by
                simp [get_audio_by_language, hc, hp, hd]
              rw [hres] at hx
              injection hx with hx
              subst hx
              exact hgf (language, item) (dictGet_mem _ _ _ hd)
          | none => simp [get_audio_by_language, hc, hp, hd] at hx
    · cases hd : dictGet s.fallback language with
      | some item =>
          have hres : (get_audio_by_language s err language).1
              = ApiResult.ok item := by
            simp [get_audio_by_language, hc, hd]
          rw [hres] at hx
          injection hx with hx
          subst hx
          exact hgf (language, item) (dictGet_mem _ _ _ hd)
      | none => simp [get_audio_by_language, hc, hd] at hx

/-- Witness for C7: the connected startup state satisfies the id
invariant, and so does the state after creating `french` in it. -/
theorem C7_id_invariant_witness :
    StateGood (create_audio_file (startup_event true []) false
      { language := "french", audio_url := "u", text_content := "t" }).2 :=
  (C7_id_invariant (startup_event true []) false "french"
      { language := "french", audio_url := "u", text_content := "t" }
      true [] english_audio english_audio).2.2.2.2.1 (by decide)

/-- C9.  When the startup probe has failed (`db_connected = false`), every
handler is served by the in-memory fallback store without contacting the
primary store: the primary store is never modified, and the response and
the fallback effect of every handler are identical for any primary-store
contents `p`; `/health` reports `fallback_mode`; and on the seeded startup
state all five operations succeed. -/
theorem C9_fallback_mode (s : ApiState) (p : List AudioFile)
    (err pingErr : Bool) (language : String) (req : AudioFileCreate)
    (h : s.db_connected = false) :
    health_check s pingErr = "fallback_mode"
  ∧ (get_all_audio s err).2 = s
  ∧ (get_audio_by_language s err language).2 = s
  ∧ (create_audio_file s err req).2.primary = s.primary
  ∧ (update_audio_file s err language req).2.primary = s.primary
  ∧ (delete_audio_file s err language).2.primary = s.primary
  ∧ (get_all_audio { s with primary := p } err).1 = (get_all_audio s err).1
  ∧ (get_audio_by_language { s with primary := p } err language).1
      = (get_audio_by_language s err language).1
  ∧ (create_audio_file { s with primary := p } err req).1
      = (create_audio_file s err req).1
  ∧ (create_audio_file { s with primary := p } err req).2.fallback
      = (create_audio_file s err req).2.fallback
  ∧ (update_audio_file { s with primary := p } err language req).1
      = (update_audio_file s err language req).1
  ∧ (update_audio_file { s with primary := p } err language req).2.fallback
      = (update_audio_file s err language req).2.fallback
  ∧ (delete_audio_file { s with primary := p } err language).1
      = (delete_audio_file s err language).1
  ∧ (delete_audio_file { s with primary := p } err language).2.fallback
      = (delete_audio_file s err language).2.fallback
  ∧ (get_all_audio (startup_event false []) err).1.isOk = true
  ∧ (get_audio_by_language (startup_event false []) err "english").1.isOk = true
  ∧ (create_audio_file (startup_event false []) err
      { language := "french", audio_url := "u", text_content := "t" }).1.isOk = true
  ∧ (update_audio_file (startup_event false []) err "english"
      { language := "english", audio_url := "u", text_content := "t" }).1.isOk = true
  ∧ (delete_audio_file (startup_event false []) err "arabic").1.isOk = true := by
  refine ⟨?_, ?_, ?_, ?_, ?_, ?_, ?_, ?_, ?_, ?_, ?_, ?_, ?_, ?_,
    rfl, rfl, rfl, rfl, rfl⟩
  · simp [health_check, h]
  · simp [get_all_audio, h]
  · cases hd : dictGet s.fallback language <;>
      simp [get_audio_by_language, h, hd]
  · by_cases hm : (dictGet s.fallback req.language).isSome = true <;>
      simp [create_audio_file, h, hm]
  · cases hd : dictGet s.fallback language <;>
      simp [update_audio_file, h, hd]
  · by_cases hm : (dictGet s.fallback language).isSome = true <;>
      simp [delete_audio_file, h, hm]
  · simp [get_all_audio, h]
  · cases hd : dictGet s.fallback language <;>
      simp [get_audio_by_language, h, hd]
  · by_cases hm : (dictGet s.fallback req.language).isSome = true <;>
      simp [create_audio_file, h, hm]
  · by_cases hm : (dictGet s.fallback req.language).isSome = true <;>
      simp [create_audio_file, h, hm]
  · cases hd : dictGet s.fallback language <;>
      simp [update_audio_file, h, hd]
  · cases hd : dictGet s.fallback language <;>
      simp [update_audio_file, h, hd]
  · by_cases hm : (dictGet s.fallback language).isSome = true <;>
      simp [delete_audio_file, h, hm]
  · by_cases hm : (dictGet s.fallback language).isSome = true <;>
      simp [delete_audio_file, h, hm]

/-- Witness for C9: in the fallback-mode startup state, health reports
`fallback_mode` and a get leaves the state untouched. -/
theorem C9_fallback_mode_witness :
    health_check (startup_event false []) false = "fallback_mode"
  ∧ (get_audio_by_language (startup_event false []) false "english").2
      = startup_event false [] :=
  ⟨(C9_fallback_mode (startup_event false []) [] false false "english"
      { language := "french", audio_url := "u", text_content := "t" } rfl).1,
   (C9_fallback_mode (startup_event false []) [] false false "english"
      { language := "french", audio_url := "u", text_content := "t" } rfl).2.2.1⟩

/-- C10.  Fallback-dict invariant: every key maps to a record whose
`language` equals the key, and keys are unique.  Startup seeding
establishes it, the three mutating handlers preserve it, the two readers
leave the dict untouched, and it implies that a fallback-served list
response contains at most one record per distinct language. -/
theorem C10_fallback_invariant (s : ApiState) (err : Bool)
    (language : String) (req : AudioFileCreate) (c : Bool)
    (pre : List AudioFile) :
    FallbackWF (startup_event c pre).fallback
  ∧ (FallbackWF s.fallback →
      FallbackWF (create_audio_file s err req).2.fallback)
  ∧ (FallbackWF s.fallback →
      FallbackWF (update_audio_file s err language req).2.fallback)
  ∧ (FallbackWF s.fallback →
      FallbackWF (delete_audio_file s err language).2.fallback)
  ∧ (get_all_audio s err).2.fallback = s.fallback
  ∧ (get_audio_by_language s err language).2.fallback = s.fallback
  ∧ (s.db_connected = false → FallbackWF s.fallback →
      ((okList (get_all_audio s err).1).map AudioFile.language).Nodup) := by
  refine ⟨?_, ?_, ?_, ?_, ?_, ?_, ?_⟩
  · show FallbackWF (seedFallback SAMPLE_AUDIO_DATA)
    decide
  · rintro ⟨hv, hn⟩
    by_cases hc : s.db_connected = true ∧ err = false
    · cases hp : findByLanguage s.primary req.language with
      | some a =>
          have hst : (create_audio_file s err req).2.fallback = s.fallback := by
            simp [create_audio_file, hc, hp]
          rw [hst]
          exact ⟨hv, hn⟩
      | none =>
          have hst : (create_audio_file s err req).2.fallback = s.fallback := by
            simp [create_audio_file, hc, hp]
          rw [hst]
          exact ⟨hv, hn⟩
    · by_cases hm : (dictGet s.fallback req.language).isSome = true
      · have hst : (create_audio_file s err req).2.fallback = s.fallback := by
          simp [create_audio_file, hc, hm]
        rw [hst]
        exact ⟨hv, hn⟩
      · have hmn : dictGet s.fallback req.language = none :=
          Option.not_isSome_iff_eq_none.1 (by simpa using hm)
        have hst : (create_audio_file s err req).2.fallback
            = dictInsert s.fallback req.language (mkDoc req) := by
          simp [create_audio_file, hc, hm]
        rw [hst, dictInsert_of_absent s.fallback req.language (mkDoc req) hmn]
        constructor
        · intro e he
          rcases List.mem_append.1 he with he | he
          · exact hv e he
          · rcases List.mem_cons.1 he with he | he
            · subst he
              rfl
            · simp at he
        · rw [List.map_append]
          refine List.nodup_append.2 ⟨hn, List.nodup_singleton _, ?_⟩
          intro a ha hak
          simp only [List.map_cons, List.map_nil, List.mem_singleton] at hak
          subst hak
          exact (dictGet_eq_none_iff s.fallback req.language).1 hmn ha
  · rintro ⟨hv, hn⟩
    by_cases hc : s.db_connected = true ∧ err = false
    · cases hp : findByLanguage s.primary language with
      | some a =>
          have hst : (update_audio_file s err language req).2.fallback
              = s.fallback := by
            simp [update_audio_file, hc, hp]
          rw [hst]
          exact ⟨hv, hn⟩
      | none =>
          have hst : (update_audio_file s err language req).2.fallback
              = s.fallback := by
            simp [update_audio_file, hc, hp]
          rw [hst]
          exact ⟨hv, hn⟩
    · cases hd : dictGet s.fallback language with
      | none =>
          have hst : (update_audio_file s err language req).2.fallback
              = s.fallback := by
            simp [update_audio_file, hc, hd]
          rw [hst]
          exact ⟨hv, hn⟩
      | some item =>
          have hst : (update_audio_file s err language req).2.fallback
              = (dictInsert s.fallback language
                  { item with audio_url := req.audio_url, text_content := req.text_content }) := by
            simp [update_audio_file, hc, hd]
          rw [hst]
          have hitem : item.language = language :=
            hv (language, item) (dictGet_mem _ _ _ hd)
          constructor
          · intro e he
            rcases mem_dictInsert _ _ _ e he with he | he
            · exact hv e he
            · subst he
              exact hitem
          · rw [dictInsert_map_fst_of_present s.fallback language _
              (by rw [hd]; rfl)]
            exact hn
  · rintro ⟨hv, hn⟩
    by_cases hc : s.db_connected = true ∧ err = false
    · by_cases hp : (findByLanguage s.primary language).isSome = true
      · have hst : (delete_audio_file s err language).2.fallback = s.fallback := by
          simp [delete_audio_file, hc, hp]
        rw [hst]
        exact ⟨hv, hn⟩
      · have hst : (delete_audio_file s err language).2.fallback = s.fallback := by
          simp [delete_audio_file, hc, hp]
        rw [hst]
        exact ⟨hv, hn⟩
    · by_cases hm : (dictGet s.fallback language).isSome = true
      · have hst : (delete_audio_file s err language).2.fallback
            = dictDelete s.fallback language := by
          simp [delete_audio_file, hc, hm]
        rw [hst]
        constructor
        · intro e he
          exact hv e (List.mem_of_mem_filter he)
        · exact List.Nodup.sublist
            ((List.filter_sublist s.fallback).map Prod.fst) hn
      · have hst : (delete_audio_file s err language).2.fallback = s.fallback := by
          simp [delete_audio_file, hc, hm]
        rw [hst]
        exact ⟨hv, hn⟩
  · simp only [get_all_audio]
    split <;> rfl
  · simp only [get_audio_by_language]
    repeat' split
    all_goals rfl
  · rintro hcf ⟨hv, hn⟩
    have hres : okList (get_all_audio s err).1
        = sortByLanguage (s.fallback.map Prod.snd) := by
      simp [get_all_audio, hcf, okList]
    rw [hres]
    have hperm := (perm_sortByLanguage (s.fallback.map Prod.snd)).map
      AudioFile.language
    rw [List.Perm.nodup_iff hperm, List.map_map]
    have hmap : s.fallback.map (AudioFile.language ∘ Prod.snd)
        = s.fallback.map Prod.fst := map_language_eq_map_fst s.fallback hv
    rw [hmap]
    exact hn

/-- Witness for C10: the invariant holds after creating `french` in the
seeded fallback-mode startup state. -/
theorem C10_fallback_invariant_witness :
    FallbackWF (create_audio_file (startup_event false []) false
      { language := "french", audio_url := "u", text_content := "t" }).2.fallback :=
  (C10_fallback_invariant (startup_event false []) false "french"
      { language := "french", audio_url := "u", text_content := "t" }
      false []).2.1 (by decide)
